import Mathlib

/-!
Shallow embedding of the semantic query expansion and relevance ranking
engine (`SemanticSearchEngine` in `apfs/semantic_search.py`).

Python strings are modelled by `String` (ASCII fragment: `str.lower` /
`str.upper` agree with `Char.toLower` / `Char.toUpper` there), Python sets
of strings by `Finset String`, Python dicts by association lists in
insertion order, and the float score by `ℚ` (the literals `0.5` and `0.3`
are taken at their exact rational value).
-/

/-- Lowercasing, as Python `str.lower()` on the ASCII fragment. -/
def toLowerStr (s : String) : String := String.mk (s.toList.map Char.toLower)

/-- Uppercasing, as Python `str.upper()` on the ASCII fragment. -/
def toUpperStr (s : String) : String := String.mk (s.toList.map Char.toUpper)

/-- Characters matched by the delimiter class `[,\s\-_]` of
`re.split(r'[,\s\-_]+', ...)` in `_extract_key_terms`. -/
def isDelim (c : Char) : Bool :=
  c = ',' || c = ' ' || c = '\t' || c = '\n' || c = '\r' || c = '\x0b' ||
  c = '\x0c' || c = '-' || c = '_'

/-- Python whitespace (the `\s` class / `str.split()` / `str.strip()`). -/
def isPySpace (c : Char) : Bool :=
  c = ' ' || c = '\t' || c = '\n' || c = '\r' || c = '\x0b' || c = '\x0c'

/-- Python `str.strip()`. -/
def stripStr (s : String) : String :=
  String.mk (((s.toList.dropWhile isPySpace).reverse.dropWhile isPySpace).reverse)

/-- Split at every character satisfying `p`, keeping empty pieces (the
accumulator holds the current piece reversed). -/
def splitStrAux (p : Char → Bool) : List Char → List Char → List String
  | [], acc => [String.mk acc.reverse]
  | c :: rest, acc =>
      if p c then String.mk acc.reverse :: splitStrAux p rest []
      else splitStrAux p rest (c :: acc)

/-- Split a string at every character satisfying `p`; empty pieces between
adjacent delimiters are kept (they are filtered away by the callers, which
matches collapsing delimiter runs as the `+` in the regex does). -/
def splitStr (p : Char → Bool) (s : String) : List String :=
  splitStrAux p s.toList []

/-- Python `str.split()` (split on whitespace runs, dropping empties). -/
def pySplitWs (s : String) : List String :=
  (splitStr isPySpace s).filter (fun t => t ≠ "")

/-- Scanner for `re.findall(r'"([^"]*)"', query)`: quotes pair up left to
right; each matched pair contributes the characters strictly between the
quotes; a trailing unmatched quote contributes nothing.  The second
argument is `some acc` while inside an open quote (accumulated reversed). -/
def scanQuotedAux : List Char → Option (List Char) → List String
  | [], _ => []
  | c :: rest, none =>
      if c = '"' then scanQuotedAux rest (some []) else scanQuotedAux rest none
  | c :: rest, some acc =>
      if c = '"' then String.mk acc.reverse :: scanQuotedAux rest none
      else scanQuotedAux rest (some (c :: acc))

/-- `re.findall(r'"([^"]*)"', query)`. -/
def scanQuoted (s : String) : List String := scanQuotedAux s.toList none

/-- Python `needle in hay` on strings: contiguous-substring test. -/
def startsWithChars : List Char → List Char → Bool
  | [], _ => true
  | _ :: _, [] => false
  | a :: as, b :: bs => a = b && startsWithChars as bs

/-- Occurrence of `needle` at some position of `hay`. -/
def occursIn : List Char → List Char → Bool
  | needle, [] => needle.isEmpty
  | needle, c :: rest => startsWithChars needle (c :: rest) || occursIn needle rest

/-- Python `needle in hay` (contiguous substring containment). -/
def pyIn (needle hay : String) : Bool := occursIn needle.toList hay.toList

/-- Python single-character `str.replace(" ", "_")`. -/
def replace_space (s : String) : String :=
  String.mk (s.toList.map (fun c => if c = ' ' then '_' else c))

/-- Python dict assignment `d[k] = v`: overwrite in place if the key is
present, else append at the end (insertion order preserved). -/
def dictSet {β : Type} (d : List (String × β)) (k : String) (v : β) :
    List (String × β) :=
  if (List.lookup k d).isSome then
    d.map (fun p => if p.1 = k then (k, v) else p)
  else d ++ [(k, v)]

/-- Python `d.get(k, v0)`. -/
def dictGetD {β : Type} (d : List (String × β)) (k : String) (v0 : β) : β :=
  (List.lookup k d).getD v0

/-- The table returned by `_load_academic_synonyms` (insertion order). -/
def academic_synonyms : List (String × List String) :=
  [("artificial intelligence", ["AI", "machine intelligence", "computational intelligence", "intelligent systems"]),
   ("machine learning", ["ML", "statistical learning", "automated learning", "pattern recognition"]),
   ("deep learning", ["neural networks", "deep neural networks", "DNN", "artificial neural networks", "ANN"]),
   ("natural language processing", ["NLP", "computational linguistics", "language processing", "text processing"]),
   ("computer vision", ["CV", "image processing", "visual computing", "pattern recognition", "image analysis"]),
   ("reinforcement learning", ["RL", "reward learning", "sequential decision making", "policy learning"]),
   ("neural network", ["neural net", "connectionist", "artificial neural network", "ANN", "deep network"]),
   ("transformer", ["attention mechanism", "self-attention", "bert", "gpt", "language model"]),
   ("large language model", ["LLM", "foundation model", "generative model", "language generation"]),
   ("generative ai", ["generative model", "text generation", "image generation", "content generation"]),
   ("algorithm", ["algorithmic", "computational method", "procedure", "technique"]),
   ("optimization", ["optimisation", "minimization", "maximization", "objective function"]),
   ("distributed computing", ["parallel computing", "cluster computing", "grid computing", "cloud computing"]),
   ("cybersecurity", ["information security", "network security", "computer security", "cyber defense"]),
   ("blockchain", ["distributed ledger", "cryptocurrency", "bitcoin", "ethereum", "smart contracts"]),
   ("quantum computing", ["quantum computation", "quantum algorithms", "quantum information", "qubits"]),
   ("data science", ["data analytics", "data mining", "big data", "data analysis", "statistical analysis"]),
   ("data mining", ["knowledge discovery", "pattern mining", "data exploration", "information extraction"]),
   ("big data", ["large-scale data", "massive data", "data processing", "scalable analytics"]),
   ("statistics", ["statistical analysis", "statistical methods", "probability", "inference"]),
   ("quantum mechanics", ["quantum physics", "quantum theory", "wave mechanics", "matrix mechanics"]),
   ("relativity", ["general relativity", "special relativity", "einstein", "spacetime"]),
   ("particle physics", ["high energy physics", "elementary particles", "quantum field theory"]),
   ("condensed matter", ["solid state physics", "many-body physics", "materials science"]),
   ("linear algebra", ["matrix theory", "vector spaces", "eigenvalues", "linear transformations"]),
   ("calculus", ["differential calculus", "integral calculus", "mathematical analysis"]),
   ("graph theory", ["network theory", "combinatorial optimization", "discrete mathematics"]),
   ("topology", ["algebraic topology", "differential topology", "geometric topology"]),
   ("bioinformatics", ["computational biology", "systems biology", "genomics", "proteomics"]),
   ("genetics", ["genomics", "molecular genetics", "heredity", "DNA analysis"]),
   ("neuroscience", ["brain research", "cognitive science", "neural networks", "neuroimaging"]),
   ("epidemiology", ["disease modeling", "public health", "infectious disease", "population health"]),
   ("robotics", ["autonomous systems", "robot control", "mechatronics", "automation"]),
   ("control systems", ["feedback control", "system dynamics", "automatic control", "regulation"]),
   ("signal processing", ["digital signal processing", "DSP", "filtering", "spectral analysis"])]

/-- The table returned by `_load_domain_terms` (insertion order). -/
def domain_terms : List (String × List String) :=
  [("machine_learning",
    ["supervised learning", "unsupervised learning", "semi-supervised", "transfer learning",
     "feature selection", "dimensionality reduction", "cross-validation", "overfitting",
     "regularization", "gradient descent", "backpropagation", "ensemble methods"]),
   ("deep_learning",
    ["convolutional neural networks", "CNN", "recurrent neural networks", "RNN", "LSTM", "GRU",
     "autoencoder", "generative adversarial networks", "GAN", "attention mechanism",
     "batch normalization", "dropout", "activation function", "loss function"]),
   ("nlp",
    ["tokenization", "part-of-speech", "named entity recognition", "sentiment analysis",
     "machine translation", "question answering", "text classification", "language model",
     "word embedding", "BERT", "GPT", "transformer", "semantic parsing"]),
   ("computer_vision",
    ["object detection", "image classification", "semantic segmentation", "face recognition",
     "optical character recognition", "OCR", "image processing", "feature extraction",
     "edge detection", "histogram", "convolution", "pooling"]),
   ("quantum",
    ["qubit", "superposition", "entanglement", "quantum gate", "quantum circuit",
     "quantum algorithm", "quantum supremacy", "quantum error correction", "decoherence"])]

/-- The table returned by `_load_abbreviations` (insertion order). -/
def abbreviation_map : List (String × String) :=
  [("AI", "artificial intelligence"),
   ("ML", "machine learning"),
   ("DL", "deep learning"),
   ("NLP", "natural language processing"),
   ("CV", "computer vision"),
   ("RL", "reinforcement learning"),
   ("CNN", "convolutional neural network"),
   ("RNN", "recurrent neural network"),
   ("LSTM", "long short-term memory"),
   ("GAN", "generative adversarial network"),
   ("LLM", "large language model"),
   ("NER", "named entity recognition"),
   ("OCR", "optical character recognition"),
   ("API", "application programming interface"),
   ("GPU", "graphics processing unit"),
   ("CPU", "central processing unit"),
   ("IoT", "internet of things"),
   ("AR", "augmented reality"),
   ("VR", "virtual reality")]

/-- The stop-word set of `_extract_key_terms`. -/
def stop_words : List String :=
  ["a", "an", "and", "are", "as", "at", "be", "by", "for", "from",
   "has", "he", "in", "is", "it", "its", "of", "on", "that", "the",
   "to", "was", "will", "with", "using", "based", "approach", "method"]

/-- `SemanticSearchEngine._extract_key_terms`, before the final `set(...)`:
stop-word / length filtered tokens of the lowercased query, then quoted
phrases of the original query, then recognized adjacent-word compounds. -/
def extract_key_terms_list (query : String) : List String :=
  let terms := (splitStr isDelim (toLowerStr query)).map stripStr
  let terms := terms.filter (fun t => t ≠ "")
  let meaningful_terms := terms.filter (fun term =>
    ¬ (term ∈ stop_words) ∧
    (term.length > 2 ∨ (List.lookup (toUpperStr term) abbreviation_map).isSome))
  let meaningful_terms := meaningful_terms ++ scanQuoted query
  let words := pySplitWs query
  let meaningful_terms := meaningful_terms ++
    ((words.zip words.tail).filterMap (fun p =>
      if p.1.length > 2 ∧ p.2.length > 2 then
        let compound := toLowerStr (p.1 ++ " " ++ p.2)
        if (List.lookup compound academic_synonyms).isSome then some compound
        else none
      else none))
  meaningful_terms

/-- `SemanticSearchEngine._extract_key_terms`: the Python function returns
`list(set(meaningful_terms))`; the set is modelled by deduplication (Python
set iteration order is unspecified, so the particular order is a choice). -/
def extract_key_terms (query : String) : List String :=
  (extract_key_terms_list query).dedup

/-- The `SemanticExpansion` dataclass. `expanded_terms` is a Python set
converted to a list with unspecified order: it is modelled by the set. -/
structure SemanticExpansion where
  original_terms : List String
  expanded_terms : Finset String
  synonyms : List (String × List String)
  related_terms : List (String × List String)
deriving DecidableEq

/-- Mutable locals of the `for term in original_terms` loop of
`expand_query`. -/
structure ExpandState where
  expanded : Finset String
  synonyms : List (String × List String)
  related : List (String × List String)
deriving DecidableEq

/-- One iteration of the reverse abbreviation lookup loop
(`for abbrev, expansion in self.abbreviation_map.items(): ...`). -/
def reverse_abbrev_step (term_lower term : String) (st : ExpandState)
    (ae : String × String) : ExpandState :=
  if term_lower = toLowerStr ae.2 then
    { st with
      expanded := insert ae.1 st.expanded,
      synonyms := dictSet st.synonyms term (dictGetD st.synonyms term [] ++ [ae.1]) }
  else st

/-- The body of the `for term in original_terms` loop of `expand_query`:
synonym lookup, abbreviation expansion, reverse abbreviation lookup,
domain-cluster terms (aggressive mode only). -/
def expand_step (expansion_mode : String) (st : ExpandState) (term : String) :
    ExpandState :=
  let term_lower := toLowerStr term
  let st :=
    match List.lookup term_lower academic_synonyms with
    | some term_synonyms =>
        { st with
          synonyms := dictSet st.synonyms term term_synonyms,
          expanded :=
            if expansion_mode = "moderate" ∨ expansion_mode = "aggressive" then
              st.expanded ∪ term_synonyms.toFinset
            else st.expanded }
    | none => st
  let st :=
    match List.lookup (toUpperStr term) abbreviation_map with
    | some expanded_term =>
        { st with
          expanded := insert expanded_term st.expanded,
          synonyms := dictSet st.synonyms term
            (dictGetD st.synonyms term [] ++ [expanded_term]) }
    | none => st
  let st := List.foldl (reverse_abbrev_step term_lower term) st abbreviation_map
  if expansion_mode = "aggressive" then
    match List.lookup (replace_space term_lower) domain_terms with
    | some domain_related =>
        { st with
          related := dictSet st.related term domain_related,
          expanded := st.expanded ∪ (domain_related.take 5).toFinset }
    | none => st
  else st

/-- `SemanticSearchEngine.expand_query`. -/
def expand_query (query : String) (expansion_mode : String) : SemanticExpansion :=
  let original_terms := extract_key_terms query
  let st := List.foldl (expand_step expansion_mode)
    ⟨original_terms.toFinset, [], []⟩ original_terms
  { original_terms := original_terms,
    expanded_terms := st.expanded,
    synonyms := st.synonyms,
    related_terms := st.related }

/-- Python `f'"{synonym}"'`. -/
def quoteStr (s : String) : String := "\"" ++ s ++ "\""

/-- `SemanticSearchEngine.build_semantic_query`. -/
def build_semantic_query (original_query : String) (expansion_mode : String) :
    String :=
  let expansion := expand_query original_query expansion_mode
  let query_parts := ["(" ++ original_query ++ ")"]
  let query_parts := query_parts ++ expansion.synonyms.filterMap (fun p =>
    if p.2 = [] then none
    else some ("(" ++ String.intercalate " OR " ((p.2.take 3).map quoteStr) ++ ")"))
  if expansion_mode = "conservative" then
    if query_parts.length > 1 then String.intercalate " OR " (query_parts.take 2)
    else query_parts.headD ""
  else if expansion_mode = "moderate" then
    if query_parts.length > 3 then String.intercalate " OR " (query_parts.take 4)
    else String.intercalate " OR " query_parts
  else
    String.intercalate " OR " query_parts

/-- A retrieved paper record: the fields `rank_results_by_relevance` reads.
The publication date is modelled as an integer timestamp. -/
structure Paper where
  title : String
  abstract : String
  categories : List String
  published : Int
deriving DecidableEq

/-- The per-paper score computed inside `rank_results_by_relevance`
(`0.5` and `0.3` taken exactly, in `ℚ`). -/
def score_paper (expansion : SemanticExpansion) (paper : Paper) : ℚ :=
  let original_terms := (expansion.original_terms.map toLowerStr).toFinset
  let expanded_terms := expansion.expanded_terms.image toLowerStr
  let text_content := toLowerStr (paper.title ++ " " ++ paper.abstract)
  let original_score : ℕ :=
    Finset.sum (original_terms.filter (fun t => pyIn t text_content = true))
      (fun _ => 2)
  let synonym_score : ℕ :=
    Finset.sum (expanded_terms.filter
      (fun t => pyIn t text_content = true ∧ t ∉ original_terms)) (fun _ => 1)
  let category_score : ℕ :=
    List.countP (fun category =>
      decide (∃ t ∈ original_terms, pyIn t (toLowerStr category) = true))
      paper.categories
  (original_score : ℚ) + (synonym_score : ℚ) * 0.5 + (category_score : ℚ) * 0.3

/-- Ascending lexicographic order on the Python sort key
`(score, published)`; `scored_papers.sort(..., reverse=True)` is the stable
sort with comparator "key of the right is ≤ key of the left". -/
def scoredKeyLe (a b : Paper × ℚ) : Prop :=
  a.2 < b.2 ∨ (a.2 = b.2 ∧ a.1.published ≤ b.1.published)

instance (a b : Paper × ℚ) : Decidable (scoredKeyLe a b) := by
  unfold scoredKeyLe; infer_instance

/-- `SemanticSearchEngine.rank_results_by_relevance`. -/
def rank_results_by_relevance (papers : List Paper) (original_query : String) :
    List Paper :=
  let expansion := expand_query original_query "moderate"
  let scored_papers := papers.map (fun paper => (paper, score_paper expansion paper))
  let sorted := scored_papers.mergeSort (fun a b => decide (scoredKeyLe b a))
  sorted.map (fun x => x.1)

/-- The specification's per-paper score formula, written from the spec
sentence: `2 ×` (count of original terms found as substrings of the
lowercased title-plus-abstract) `+ 0.5 ×` (count of expanded-but-not-
original terms found as substrings) `+ 0.3 ×` (count of categories
containing any original term as a case-insensitive substring), with the
term sets taken from a fresh expansion of the query under mode
"moderate". -/
def spec_relevance_score (q : String) (paper : Paper) : ℚ :=
  let expansion := expand_query q "moderate"
  let original := (expansion.original_terms.map toLowerStr).toFinset
  let expanded := expansion.expanded_terms.image toLowerStr
  let text := toLowerStr (paper.title ++ " " ++ paper.abstract)
  2 * ((original.filter (fun t => pyIn t text = true)).card : ℚ) +
  0.5 * ((expanded.filter
    (fun t => pyIn t text = true ∧ t ∉ original)).card : ℚ) +
  0.3 * ((paper.categories.filter (fun c =>
    decide (∃ t ∈ original, pyIn t (toLowerStr c) = true))).length : ℚ)

/-!  Proof-level characterizations of the expansion loop. -/

/-- Abbreviations added by the reverse lookup for a given lowercased term. -/
def revAdd (term_lower : String) : List (String × String) → Finset String
  | [] => ∅
  | ae :: rest =>
      if term_lower = toLowerStr ae.2 then insert ae.1 (revAdd term_lower rest)
      else revAdd term_lower rest

/-- The set of terms one loop iteration of `expand_query` adds to
`expanded_terms` for a given term under a given mode. -/
def added_terms (expansion_mode : String) (term : String) : Finset String :=
  let term_lower := toLowerStr term
  (if expansion_mode = "moderate" ∨ expansion_mode = "aggressive" then
     ((List.lookup term_lower academic_synonyms).getD []).toFinset
   else ∅) ∪
  ((List.lookup (toUpperStr term) abbreviation_map).elim ∅ (fun e => {e})) ∪
  revAdd term_lower abbreviation_map ∪
  (if expansion_mode = "aggressive" then
     (((List.lookup (replace_space term_lower) domain_terms).getD []).take 5).toFinset
   else ∅)

/-- Terms added across a list of original terms. -/
def added_all (expansion_mode : String) : List String → Finset String
  | [] => ∅
  | t :: ts => added_terms expansion_mode t ∪ added_all expansion_mode ts

/-- The synonyms-dictionary effect of one reverse-lookup iteration. -/
def revSynStep (term_lower term : String) (d : List (String × List String))
    (ae : String × String) : List (String × List String) :=
  if term_lower = toLowerStr ae.2 then
    dictSet d term (dictGetD d term [] ++ [ae.1])
  else d

/-- The synonyms-dictionary effect of one loop iteration of `expand_query`
(the same in every mode). -/
def syn_update (d : List (String × List String)) (term : String) :
    List (String × List String) :=
  let term_lower := toLowerStr term
  let d :=
    match List.lookup term_lower academic_synonyms with
    | some term_synonyms => dictSet d term term_synonyms
    | none => d
  let d :=
    match List.lookup (toUpperStr term) abbreviation_map with
    | some expanded_term => dictSet d term (dictGetD d term [] ++ [expanded_term])
    | none => d
  List.foldl (revSynStep term_lower term) d abbreviation_map

/-!
State-passing (heap) embedding for the mutation claims.  Python lists are
mutable heap objects; the lexicon tables map keys to heap addresses, so an
aliased value (`synonyms[term] = term_synonyms` aliases the lexicon list)
is represented by sharing an address.  Python list concatenation `xs + ys`
allocates a fresh object, modelled by `heap_alloc`; nothing ever writes to
an existing cell, which is the content of the immutability claim.
-/

/-- The mutable state of a `SemanticSearchEngine` instance: a heap of
string-list objects plus the three lexicon tables (synonym and domain
values given by heap address, abbreviation values are plain strings). -/
structure EngineState where
  heap : List (List String)
  academic_synonyms : List (String × Nat)
  domain_terms : List (String × Nat)
  abbreviation_map : List (String × String)

/-- Dereference a heap address. -/
def heap_get (s : EngineState) (a : Nat) : List String := (s.heap.get? a).getD []

/-- Allocate a fresh list object, returning its address. -/
def heap_alloc (s : EngineState) (cell : List String) : EngineState × Nat :=
  ({ s with heap := s.heap ++ [cell] }, s.heap.length)

/-- The engine state built by `__init__`: every lexicon value list is a
distinct heap cell. -/
def init_engine : EngineState :=
  { heap := academic_synonyms.map (fun p => p.2) ++ domain_terms.map (fun p => p.2),
    academic_synonyms := academic_synonyms.enum.map (fun p => (p.2.1, p.1)),
    domain_terms := domain_terms.enum.map
      (fun p => (p.2.1, academic_synonyms.length + p.1)),
    abbreviation_map := abbreviation_map }

/-- `_extract_key_terms`, reading the tables from the engine state. -/
def extract_key_terms_st (s : EngineState) (query : String) : List String :=
  let terms := (splitStr isDelim (toLowerStr query)).map stripStr
  let terms := terms.filter (fun t => t ≠ "")
  let meaningful_terms := terms.filter (fun term =>
    ¬ (term ∈ stop_words) ∧
    (term.length > 2 ∨ (List.lookup (toUpperStr term) s.abbreviation_map).isSome))
  let meaningful_terms := meaningful_terms ++ scanQuoted query
  let words := pySplitWs query
  let meaningful_terms := meaningful_terms ++
    ((words.zip words.tail).filterMap (fun p =>
      if p.1.length > 2 ∧ p.2.length > 2 then
        let compound := toLowerStr (p.1 ++ " " ++ p.2)
        if (List.lookup compound s.academic_synonyms).isSome then some compound
        else none
      else none))
  meaningful_terms.dedup

/-- The `SemanticExpansion` value in the heap embedding: synonym and
related lists are given by heap address. -/
structure HExpansion where
  original_terms : List String
  expanded_terms : Finset String
  synonyms : List (String × Nat)
  related_terms : List (String × Nat)

/-- Loop state of `expand_query` in the heap embedding. -/
structure HExpandState where
  engine : EngineState
  expanded : Finset String
  synonyms : List (String × Nat)
  related : List (String × Nat)

/-- Heap embedding of one reverse-lookup iteration:
`synonyms[term] = synonyms.get(term, []) + [abbrev]` reads the current
list and allocates a fresh one. -/
def reverse_abbrev_step_st (term_lower term : String) (st : HExpandState)
    (ae : String × String) : HExpandState :=
  if term_lower = toLowerStr ae.2 then
    let cur := match List.lookup term st.synonyms with
               | some a => heap_get st.engine a
               | none => []
    let alloc := heap_alloc st.engine (cur ++ [ae.1])
    { st with
      engine := alloc.1,
      expanded := insert ae.1 st.expanded,
      synonyms := dictSet st.synonyms term alloc.2 }
  else st

/-- Heap embedding of the body of the `for term in original_terms` loop of
`expand_query`; `synonyms[term] = term_synonyms` stores the lexicon list's
own address (aliasing). -/
def expand_step_st (expansion_mode : String) (st : HExpandState) (term : String) :
    HExpandState :=
  let term_lower := toLowerStr term
  let st :=
    match List.lookup term_lower st.engine.academic_synonyms with
    | some a =>
        { st with
          synonyms := dictSet st.synonyms term a,
          expanded :=
            if expansion_mode = "moderate" ∨ expansion_mode = "aggressive" then
              st.expanded ∪ (heap_get st.engine a).toFinset
            else st.expanded }
    | none => st
  let st :=
    match List.lookup (toUpperStr term) st.engine.abbreviation_map with
    | some expanded_term =>
        let cur := match List.lookup term st.synonyms with
                   | some a => heap_get st.engine a
                   | none => []
        let alloc := heap_alloc st.engine (cur ++ [expanded_term])
        { st with
          engine := alloc.1,
          expanded := insert expanded_term st.expanded,
          synonyms := dictSet st.synonyms term alloc.2 }
    | none => st
  let st := List.foldl (reverse_abbrev_step_st term_lower term) st
    st.engine.abbreviation_map
  if expansion_mode = "aggressive" then
    match List.lookup (replace_space term_lower) st.engine.domain_terms with
    | some a =>
        { st with
          related := dictSet st.related term a,
          expanded := st.expanded ∪ ((heap_get st.engine a).take 5).toFinset }
    | none => st
  else st

/-- Heap embedding of `SemanticSearchEngine.expand_query`. -/
def expand_query_st (s : EngineState) (query : String) (expansion_mode : String) :
    EngineState × HExpansion :=
  let original_terms := extract_key_terms_st s query
  let st := List.foldl (expand_step_st expansion_mode)
    ⟨s, original_terms.toFinset, [], []⟩ original_terms
  (st.engine, ⟨original_terms, st.expanded, st.synonyms, st.related⟩)

/-- Heap embedding of `SemanticSearchEngine.build_semantic_query`. -/
def build_semantic_query_st (s : EngineState) (original_query : String)
    (expansion_mode : String) : EngineState × String :=
  let r := expand_query_st s original_query expansion_mode
  let s := r.1
  let expansion := r.2
  let query_parts := ["(" ++ original_query ++ ")"]
  let query_parts := query_parts ++ expansion.synonyms.filterMap (fun p =>
    let term_synonyms := heap_get s p.2
    if term_synonyms = [] then none
    else some ("(" ++ String.intercalate " OR "
      ((term_synonyms.take 3).map quoteStr) ++ ")"))
  (s,
   if expansion_mode = "conservative" then
     if query_parts.length > 1 then String.intercalate " OR " (query_parts.take 2)
     else query_parts.headD ""
   else if expansion_mode = "moderate" then
     if query_parts.length > 3 then String.intercalate " OR " (query_parts.take 4)
     else String.intercalate " OR " query_parts
   else
     String.intercalate " OR " query_parts)

/-- The per-paper score in the heap embedding (reads no heap cell: it uses
only the term sets of the expansion). -/
def score_paper_st (expansion : HExpansion) (paper : Paper) : ℚ :=
  let original_terms := (expansion.original_terms.map toLowerStr).toFinset
  let expanded_terms := expansion.expanded_terms.image toLowerStr
  let text_content := toLowerStr (paper.title ++ " " ++ paper.abstract)
  let original_score : ℕ :=
    Finset.sum (original_terms.filter (fun t => pyIn t text_content = true))
      (fun _ => 2)
  let synonym_score : ℕ :=
    Finset.sum (expanded_terms.filter
      (fun t => pyIn t text_content = true ∧ t ∉ original_terms)) (fun _ => 1)
  let category_score : ℕ :=
    List.countP (fun category =>
      decide (∃ t ∈ original_terms, pyIn t (toLowerStr category) = true))
      paper.categories
  (original_score : ℚ) + (synonym_score : ℚ) * 0.5 + (category_score : ℚ) * 0.3

/-- Heap embedding of `SemanticSearchEngine.rank_results_by_relevance`. -/
def rank_results_by_relevance_st (s : EngineState) (papers : List Paper)
    (original_query : String) : EngineState × List Paper :=
  let r := expand_query_st s original_query "moderate"
  let scored_papers := papers.map (fun paper => (paper, score_paper_st r.2 paper))
  let sorted := scored_papers.mergeSort (fun a b => decide (scoredKeyLe b a))
  (r.1, sorted.map (fun x => x.1))

/-- Heap embedding of `SemanticSearchEngine.explain_expansion` (it calls
`expand_query`, then `build_semantic_query`, which expands again). -/
def explain_expansion_st (s : EngineState) (query : String)
    (expansion_mode : String) : EngineState × String :=
  let r := expand_query_st s query expansion_mode
  let s := r.1
  let expansion := r.2
  let explanation := ["Original query: '" ++ query ++ "'"]
  let explanation := explanation ++ ["Expansion mode: " ++ expansion_mode]
  let explanation := explanation ++
    (if expansion.synonyms ≠ [] then
       ["\nSynonyms found:"] ++ expansion.synonyms.map (fun p =>
         "  • " ++ p.1 ++ ": " ++
         String.intercalate ", " ((heap_get s p.2).take 3))
     else [])
  let explanation := explanation ++
    (if expansion.related_terms ≠ [] then
       ["\nRelated terms:"] ++ expansion.related_terms.map (fun p =>
         "  • " ++ p.1 ++ ": " ++
         String.intercalate ", " ((heap_get s p.2).take 3))
     else [])
  let rq := build_semantic_query_st s query expansion_mode
  let explanation := explanation ++ ["\nExpanded search query:\n" ++ rq.2]
  (rq.1, String.intercalate "\n" explanation)

/-- State evolution allowed to the engine: lexicon tables untouched and the
heap only extended, so every pre-existing object (in particular every
lexicon value list) is unchanged. -/
def engine_preserved (s s' : EngineState) : Prop :=
  s'.academic_synonyms = s.academic_synonyms ∧
  s'.domain_terms = s.domain_terms ∧
  s'.abbreviation_map = s.abbreviation_map ∧
  ∀ a, a < s.heap.length → s'.heap[a]? = s.heap[a]?

/-- Auxiliary form of preservation used in the induction: the heap is
extended on the right and the tables are equal. -/
def engine_extended (s s' : EngineState) : Prop :=
  s'.academic_synonyms = s.academic_synonyms ∧
  s'.domain_terms = s.domain_terms ∧
  s'.abbreviation_map = s.abbreviation_map ∧
  ∃ extra, s'.heap = s.heap ++ extra


/-! ## Lemmas -/

theorem foldl_reverse_abbrev_expanded (tl t : String) :
    ∀ (l : List (String × String)) (st : ExpandState),
    (List.foldl (reverse_abbrev_step tl t) st l).expanded = st.expanded ∪ revAdd tl l
  | [], st => by simp [revAdd]
  | ae :: rest, st => by
      simp only [List.foldl_cons, revAdd]
      rw [foldl_reverse_abbrev_expanded tl t rest]
      by_cases h : tl = toLowerStr ae.2
      · simp [reverse_abbrev_step, h, Finset.union_insert, Finset.insert_union]
      · simp [reverse_abbrev_step, h]

theorem foldl_reverse_abbrev_synonyms (tl t : String) :
    ∀ (l : List (String × String)) (st : ExpandState),
    (List.foldl (reverse_abbrev_step tl t) st l).synonyms =
      List.foldl (revSynStep tl t) st.synonyms l
  | [], _ => rfl
  | ae :: rest, st => by
      simp only [List.foldl_cons]
      rw [foldl_reverse_abbrev_synonyms tl t rest]
      by_cases h : tl = toLowerStr ae.2
      · simp [reverse_abbrev_step, revSynStep, h]
      · simp [reverse_abbrev_step, revSynStep, h]

theorem foldl_reverse_abbrev_related (tl t : String) :
    ∀ (l : List (String × String)) (st : ExpandState),
    (List.foldl (reverse_abbrev_step tl t) st l).related = st.related
  | [], _ => rfl
  | ae :: rest, st => by
      simp only [List.foldl_cons]
      rw [foldl_reverse_abbrev_related tl t rest]
      by_cases h : tl = toLowerStr ae.2
      · simp [reverse_abbrev_step, h]
      · simp [reverse_abbrev_step, h]

theorem expand_step_expanded (m : String) (st : ExpandState) (t : String) :
    (expand_step m st t).expanded = st.expanded ∪ added_terms m t := by
  unfold expand_step added_terms
  rcases h1 : List.lookup (toLowerStr t) academic_synonyms with _ | ts <;>
  rcases h2 : List.lookup (toUpperStr t) abbreviation_map with _ | e <;>
  rcases h3 : List.lookup (replace_space (toLowerStr t)) domain_terms with _ | dr <;>
  simp only [h1, h2, h3, Option.elim, Option.getD] <;>
  ext x <;>
  split_ifs <;>
  simp [Finset.mem_union, Finset.mem_insert, foldl_reverse_abbrev_expanded] <;>
  tauto

theorem expand_step_synonyms (m : String) (st : ExpandState) (t : String) :
    (expand_step m st t).synonyms = syn_update st.synonyms t := by
  unfold expand_step syn_update
  rcases h1 : List.lookup (toLowerStr t) academic_synonyms with _ | ts <;>
  rcases h2 : List.lookup (toUpperStr t) abbreviation_map with _ | e <;>
  rcases h3 : List.lookup (replace_space (toLowerStr t)) domain_terms with _ | dr <;>
  simp only [h1, h2, h3] <;>
  split_ifs <;>
  simp [foldl_reverse_abbrev_synonyms]

theorem expand_step_unknown_mode (m : String) (h2 : m ≠ "moderate")
    (h3 : m ≠ "aggressive") (st : ExpandState) (t : String) :
    expand_step m st t = expand_step "conservative" st t := by
  unfold expand_step
  simp [h2, h3]

theorem foldl_expand_expanded (m : String) :
    ∀ (l : List String) (st : ExpandState),
    (List.foldl (expand_step m) st l).expanded = st.expanded ∪ added_all m l
  | [], st => by simp [added_all]
  | t :: ts, st => by
      simp only [List.foldl_cons, added_all]
      rw [foldl_expand_expanded m ts, expand_step_expanded, Finset.union_assoc]

theorem foldl_expand_synonyms (m : String) :
    ∀ (l : List String) (st : ExpandState),
    (List.foldl (expand_step m) st l).synonyms = List.foldl syn_update st.synonyms l
  | [], _ => rfl
  | t :: ts, st => by
      simp only [List.foldl_cons]
      rw [foldl_expand_synonyms m ts, expand_step_synonyms]

theorem expand_query_expanded (q m : String) :
    (expand_query q m).expanded_terms =
      (extract_key_terms q).toFinset ∪ added_all m (extract_key_terms q) := by
  unfold expand_query
  simp [foldl_expand_expanded]

theorem expand_query_synonyms_eq (q m : String) :
    (expand_query q m).synonyms = List.foldl syn_update [] (extract_key_terms q) := by
  unfold expand_query
  simp [foldl_expand_synonyms]

theorem expand_query_unknown_mode (q m : String) (h2 : m ≠ "moderate")
    (h3 : m ≠ "aggressive") :
    expand_query q m = expand_query q "conservative" := by
  unfold expand_query
  have h : expand_step m = expand_step "conservative" :=
    funext fun st => funext fun t => expand_step_unknown_mode m h2 h3 st t
  rw [h]

theorem build_semantic_query_unknown_mode (q m : String) (h1 : m ≠ "conservative")
    (h2 : m ≠ "moderate") :
    build_semantic_query q m = build_semantic_query q "aggressive" := by
  have hs : (expand_query q m).synonyms = (expand_query q "aggressive").synonyms := by
    rw [expand_query_synonyms_eq, expand_query_synonyms_eq]
  simp only [build_semantic_query]
  rw [hs]
  simp [h1, h2]

theorem added_terms_cons_subset_mod (t : String) :
    added_terms "conservative" t ⊆ added_terms "moderate" t := by
  unfold added_terms
  have c1 : ¬("conservative" = "moderate" ∨ "conservative" = "aggressive") := by decide
  have c2 : ("moderate" = "moderate" ∨ "moderate" = "aggressive") := by decide
  have c3 : ("conservative" : String) ≠ "aggressive" := by decide
  have c4 : ("moderate" : String) ≠ "aggressive" := by decide
  simp only [if_pos c2, if_neg c1, if_neg c3, if_neg c4]
  intro x hx
  simp only [Finset.mem_union] at hx ⊢
  tauto

theorem added_terms_mod_subset_agg (t : String) :
    added_terms "moderate" t ⊆ added_terms "aggressive" t := by
  unfold added_terms
  have c1 : ("moderate" = "moderate" ∨ "moderate" = "aggressive") := by decide
  have c2 : ("aggressive" = "moderate" ∨ "aggressive" = "aggressive") := by decide
  have c3 : ("moderate" : String) ≠ "aggressive" := by decide
  have c4 : ("aggressive" : String) = "aggressive" := rfl
  simp only [if_pos c1, if_pos c2, if_neg c3, if_pos c4]
  intro x hx
  simp only [Finset.mem_union] at hx ⊢
  tauto

theorem added_all_mono {m1 m2 : String}
    (h : ∀ t, added_terms m1 t ⊆ added_terms m2 t) :
    ∀ l, added_all m1 l ⊆ added_all m2 l
  | [] => by simp [added_all]
  | t :: ts => by
      simp only [added_all]
      exact Finset.union_subset_union (h t) (added_all_mono h ts)

theorem scoredKeyLe_total (a b : Paper × ℚ) : scoredKeyLe a b ∨ scoredKeyLe b a := by
  unfold scoredKeyLe
  rcases lt_trichotomy a.2 b.2 with h | h | h
  · exact Or.inl (Or.inl h)
  · rcases le_total a.1.published b.1.published with h' | h'
    · exact Or.inl (Or.inr ⟨h, h'⟩)
    · exact Or.inr (Or.inr ⟨h.symm, h'⟩)
  · exact Or.inr (Or.inl h)

theorem scoredKeyLe_trans {a b c : Paper × ℚ}
    (hab : scoredKeyLe a b) (hbc : scoredKeyLe b c) : scoredKeyLe a c := by
  unfold scoredKeyLe at *
  rcases hab with h | ⟨h, h'⟩ <;> rcases hbc with g | ⟨g, g'⟩
  · exact Or.inl (h.trans g)
  · exact Or.inl (g ▸ h)
  · exact Or.inl (h ▸ g)
  · exact Or.inr ⟨h.trans g, h'.trans g'⟩

theorem rank_comparator_trans (a b c : Paper × ℚ)
    (hab : decide (scoredKeyLe b a) = true) (hbc : decide (scoredKeyLe c b) = true) :
    decide (scoredKeyLe c a) = true := by
  simp only [decide_eq_true_eq] at *
  exact scoredKeyLe_trans hbc hab

theorem rank_comparator_total (a b : Paper × ℚ) :
    (decide (scoredKeyLe b a) || decide (scoredKeyLe a b)) = true := by
  simp only [Bool.or_eq_true, decide_eq_true_eq]
  exact (scoredKeyLe_total b a).imp id id

theorem rank_pairwise_key (papers : List Paper) (q : String) :
    List.Pairwise (fun a b : Paper × ℚ => scoredKeyLe b a)
      ((papers.map (fun paper => (paper, score_paper (expand_query q "moderate") paper))).mergeSort
        (fun a b => decide (scoredKeyLe b a))) := by
  have h := List.sorted_mergeSort rank_comparator_trans rank_comparator_total
    (papers.map (fun paper => (paper, score_paper (expand_query q "moderate") paper)))
  exact h.imp (fun hab => of_decide_eq_true hab)

theorem rank_snd_eq (papers : List Paper) (q : String) :
    ∀ x ∈ (papers.map (fun paper => (paper, score_paper (expand_query q "moderate") paper))).mergeSort
        (fun a b => decide (scoredKeyLe b a)),
      x.2 = score_paper (expand_query q "moderate") x.1 := by
  intro x hx
  rw [List.mem_mergeSort] at hx
  rcases List.mem_map.mp hx with ⟨p, _, rfl⟩
  rfl

theorem score_paper_eq_spec (q : String) (p : Paper) :
    score_paper (expand_query q "moderate") p = spec_relevance_score q p := by
  unfold score_paper spec_relevance_score
  simp only [Finset.sum_const, smul_eq_mul, List.countP_eq_length_filter]
  push_cast
  ring

theorem engine_extended_refl (s : EngineState) : engine_extended s s :=
  ⟨rfl, rfl, rfl, [], by simp⟩

theorem engine_extended_trans {s1 s2 s3 : EngineState}
    (h12 : engine_extended s1 s2) (h23 : engine_extended s2 s3) :
    engine_extended s1 s3 := by
  obtain ⟨a12, d12, b12, e12, h12⟩ := h12
  obtain ⟨a23, d23, b23, e23, h23⟩ := h23
  exact ⟨a23.trans a12, d23.trans d12, b23.trans b12, e12 ++ e23,
    by rw [h23, h12, List.append_assoc]⟩

theorem heap_alloc_extended (s : EngineState) (cell : List String) :
    engine_extended s (heap_alloc s cell).1 :=
  ⟨rfl, rfl, rfl, [cell], rfl⟩

theorem reverse_abbrev_step_st_extended (tl t : String) (st : HExpandState)
    (ae : String × String) :
    engine_extended st.engine (reverse_abbrev_step_st tl t st ae).engine := by
  unfold reverse_abbrev_step_st
  split_ifs with h
  · exact heap_alloc_extended st.engine _
  · exact engine_extended_refl st.engine

theorem foldl_reverse_abbrev_st_extended (tl t : String) :
    ∀ (l : List (String × String)) (st : HExpandState),
    engine_extended st.engine (List.foldl (reverse_abbrev_step_st tl t) st l).engine
  | [], st => engine_extended_refl st.engine
  | ae :: rest, st => by
      simp only [List.foldl_cons]
      exact engine_extended_trans (reverse_abbrev_step_st_extended tl t st ae)
        (foldl_reverse_abbrev_st_extended tl t rest _)

theorem expand_step_st_extended (m : String) (st : HExpandState) (t : String) :
    engine_extended st.engine (expand_step_st m st t).engine := by
  unfold expand_step_st
  rcases h1 : List.lookup (toLowerStr t) st.engine.academic_synonyms with _ | a <;>
  simp only [h1] <;>
  rcases h2 : List.lookup (toUpperStr t) st.engine.abbreviation_map with _ | e <;>
  simp only [h2] <;>
  split_ifs <;>
  (try split) <;>
  first
    | exact foldl_reverse_abbrev_st_extended _ _ _ _
    | exact engine_extended_trans (heap_alloc_extended _ _)
        (foldl_reverse_abbrev_st_extended _ _ _ _)

theorem foldl_expand_step_st_extended (m : String) :
    ∀ (l : List String) (st : HExpandState),
    engine_extended st.engine (List.foldl (expand_step_st m) st l).engine
  | [], st => engine_extended_refl st.engine
  | t :: ts, st => by
      simp only [List.foldl_cons]
      exact engine_extended_trans (expand_step_st_extended m st t)
        (foldl_expand_step_st_extended m ts _)

theorem expand_query_st_extended (s : EngineState) (q m : String) :
    engine_extended s (expand_query_st s q m).1 := by
  unfold expand_query_st
  exact foldl_expand_step_st_extended m _ _

theorem build_semantic_query_st_extended (s : EngineState) (q m : String) :
    engine_extended s (build_semantic_query_st s q m).1 := by
  unfold build_semantic_query_st
  exact expand_query_st_extended s q m

theorem rank_st_extended (s : EngineState) (papers : List Paper) (q : String) :
    engine_extended s (rank_results_by_relevance_st s papers q).1 := by
  unfold rank_results_by_relevance_st
  exact expand_query_st_extended s q "moderate"

theorem explain_st_extended (s : EngineState) (q m : String) :
    engine_extended s (explain_expansion_st s q m).1 := by
  unfold explain_expansion_st
  show engine_extended s (build_semantic_query_st (expand_query_st s q m).1 q m).1
  exact engine_extended_trans (expand_query_st_extended s q m)
    (build_semantic_query_st_extended _ q m)

theorem engine_extended_implies_preserved {s s' : EngineState}
    (h : engine_extended s s') : engine_preserved s s' := by
  obtain ⟨ha, hd, hb, extra, hh⟩ := h
  refine ⟨ha, hd, hb, fun a halt => ?_⟩
  rw [hh]
  exact List.getElem?_append_left halt

/-! ## Claim theorems -/

/-- C1 counterexample: at the concrete unknown mode "invalid" both
operations return normally (there is no error result): `expand_query`
behaves exactly like mode "conservative" and `build_semantic_query`
exactly like mode "aggressive", refuting the claim that an unrecognized
mode is reported to the caller as an invalid-argument condition. -/
theorem C1_counterexample :
    expand_query "AI" "invalid" = expand_query "AI" "conservative" ∧
    build_semantic_query "AI" "invalid" = build_semantic_query "AI" "aggressive" :=
  ⟨rfl, rfl⟩

/-- C1 (amended): for every mode string not in {"conservative",
"moderate", "aggressive"}, the operations silently proceed under a default
mode's behavior: `expand_query` returns exactly the "conservative" result
(abbreviation additions only) and `build_semantic_query` returns exactly
the "aggressive" result (all clauses OR-joined); no error is reported. -/
theorem C1_unknown_mode_silently_defaults (q m : String)
    (h1 : m ≠ "conservative") (h2 : m ≠ "moderate") (h3 : m ≠ "aggressive") :
    expand_query q m = expand_query q "conservative" ∧
    build_semantic_query q m = build_semantic_query q "aggressive" :=
  ⟨expand_query_unknown_mode q m h2 h3, build_semantic_query_unknown_mode q m h1 h2⟩

/-- C1 witness: the amended theorem applied at query "AI" and mode
"bogus". -/
theorem C1_unknown_mode_silently_defaults_witness :
    ("bogus" ≠ "conservative" ∧ "bogus" ≠ "moderate" ∧ "bogus" ≠ "aggressive") ∧
    (expand_query "AI" "bogus" = expand_query "AI" "conservative" ∧
     build_semantic_query "AI" "bogus" = build_semantic_query "AI" "aggressive") :=
  ⟨by decide,
   C1_unknown_mode_silently_defaults "AI" "bogus" (by decide) (by decide) (by decide)⟩

/-- C2 counterexample: `extract_key_terms "AI"` does not contain the
spelling "AI" (and is not the list `["AI"]`): the query is lowercased
before tokenization, refuting the claim that the term keeps the spelling
"AI". -/
theorem C2_counterexample :
    "AI" ∉ extract_key_terms "AI" ∧ extract_key_terms "AI" ≠ ["AI"] := by
  decide

/-- C2 (amended): `extract_key_terms "AI"` returns exactly the one-element
set {"ai"}: the two-character token survives the length filter because its
uppercased form is a known abbreviation, but it appears lowercased since
the whole query is lowercased before tokenization. -/
theorem C2_extract_AI_lowercased : extract_key_terms "AI" = ["ai"] := rfl

/-- C3: for every query string and every mode, each original term of the
`SemanticExpansion` returned by `expand_query` is a member of its expanded
term set (`originalTerms ⊆ expandedTerms`). -/
theorem C3_original_terms_subset_expanded (q m t : String)
    (ht : t ∈ (expand_query q m).original_terms) :
    t ∈ (expand_query q m).expanded_terms := by
  rw [expand_query_expanded]
  exact Finset.mem_union_left _ (List.mem_toFinset.mpr ht)

/-- C3 witness: the theorem applied at query "AI", mode "moderate" and
term "ai". -/
theorem C3_original_terms_subset_expanded_witness :
    "ai" ∈ (expand_query "AI" "moderate").original_terms ∧
    "ai" ∈ (expand_query "AI" "moderate").expanded_terms :=
  ⟨by decide, C3_original_terms_subset_expanded "AI" "moderate" "ai" (by decide)⟩

/-- C4: for every query string the expanded term sets grow monotonically
with the mode: conservative ⊆ moderate ⊆ aggressive. -/
theorem C4_expanded_terms_monotone (q : String) :
    (expand_query q "conservative").expanded_terms ⊆
      (expand_query q "moderate").expanded_terms ∧
    (expand_query q "moderate").expanded_terms ⊆
      (expand_query q "aggressive").expanded_terms := by
  constructor <;> rw [expand_query_expanded, expand_query_expanded]
  · exact Finset.union_subset_union subset_rfl
      (added_all_mono added_terms_cons_subset_mod _)
  · exact Finset.union_subset_union subset_rfl
      (added_all_mono added_terms_mod_subset_agg _)

/-- C5: for every paper list and query, `rank_results_by_relevance`
returns a permutation of its input: same length, same paper records, none
duplicated, none lost. -/
theorem C5_rank_results_permutation (papers : List Paper) (q : String) :
    (rank_results_by_relevance papers q).Perm papers := by
  unfold rank_results_by_relevance
  refine ((List.mergeSort_perm _ _).map _).trans ?_
  rw [List.map_map]
  have hid : ((fun x : Paper × ℚ => x.1) ∘
      fun paper => (paper, score_paper (expand_query q "moderate") paper)) = id := rfl
  rw [hid, List.map_id]

/-- C6: the output of `rank_results_by_relevance` is ordered descending by
the pair (score, published): for any earlier/later pair in the output,
either the earlier one has strictly greater score, or the scores are equal
and the earlier one has the later (newer) publication timestamp. -/
theorem C6_rank_sorted_descending (papers : List Paper) (q : String) :
    List.Pairwise (fun a b : Paper =>
      score_paper (expand_query q "moderate") b <
        score_paper (expand_query q "moderate") a ∨
      (score_paper (expand_query q "moderate") a =
        score_paper (expand_query q "moderate") b ∧
       b.published ≤ a.published))
      (rank_results_by_relevance papers q) := by
  unfold rank_results_by_relevance
  rw [List.pairwise_map]
  refine List.Pairwise.imp_of_mem (fun {a b} ha hb hab => ?_)
    (rank_pairwise_key papers q)
  have ha2 := rank_snd_eq papers q a ha
  have hb2 := rank_snd_eq papers q b hb
  rcases hab with h | ⟨h, h'⟩
  · left; rw [← ha2, ← hb2]; exact h
  · right
    refine ⟨?_, h'⟩
    rw [← ha2, ← hb2]; exact h.symm

/-- C7: the relevance score that `rank_results_by_relevance` computes for
a paper equals 2 × (original terms found as substrings of the lowercased
title-plus-abstract) + 0.5 × (expanded-but-not-original terms found as
substrings) + 0.3 × (categories containing some original term as a
case-insensitive substring), with the term sets from a fresh "moderate"
expansion of the query (the float weights are modelled exactly in ℚ). -/
theorem C7_score_equals_spec_formula (q : String) (p : Paper) :
    score_paper (expand_query q "moderate") p = spec_relevance_score q p :=
  score_paper_eq_spec q p

/-- C8: `build_semantic_query "AI" "conservative"` OR-joins exactly two
parenthesized clauses, the raw original query clause `(AI)` and the
synonym clause containing the double-quoted phrase "artificial
intelligence" obtained from abbreviation expansion. -/
theorem C8_build_AI_conservative :
    build_semantic_query "AI" "conservative" =
      "(AI) OR (\"artificial intelligence\")" := rfl

/-- C9: no public operation mutates the lexicon tables: in the
state-passing embedding (Python lists as heap cells, `+` as fresh
allocation), each of the four operations leaves the three table fields
untouched and every pre-existing heap cell — in particular every lexicon
value list, even when a `synonyms` entry aliases it — unchanged. -/
theorem C9_lexicon_never_mutated (s : EngineState) (q m : String)
    (papers : List Paper) :
    engine_preserved s (expand_query_st s q m).1 ∧
    engine_preserved s (build_semantic_query_st s q m).1 ∧
    engine_preserved s (rank_results_by_relevance_st s papers q).1 ∧
    engine_preserved s (explain_expansion_st s q m).1 :=
  ⟨engine_extended_implies_preserved (expand_query_st_extended s q m),
   engine_extended_implies_preserved (build_semantic_query_st_extended s q m),
   engine_extended_implies_preserved (rank_st_extended s papers q),
   engine_extended_implies_preserved (explain_st_extended s q m)⟩

/-- C10 counterexample: the query `"a""` contains two immediately adjacent
double-quote characters, yet `extract_key_terms` does not return the empty
string for it: the regex scan pairs quotes left to right, so the adjacent
pair here does not form an empty quoted phrase. -/
theorem C10_counterexample :
    pyIn "\"\"" "\"a\"\"" = true ∧ "" ∉ extract_key_terms "\"a\"\"" := by
  decide

/-- C10 (amended): for the query consisting of just two double-quote
characters, `extract_key_terms` returns exactly the set containing the
empty string: the quoted-phrase extraction bypasses the empty-token drop
applied to ordinary tokens. -/
theorem C10_empty_quoted_phrase_kept : extract_key_terms "\"\"" = [""] := rfl
